import Mathlib

/-!
# Verification of the play-mode examination engine of `cmds.js`

This file gives a shallow embedding of the play-mode examination engine of
the quiz CLI (`exports.playCmd` in `cmds.js`, together with its helpers
`playOne`, `fin` and `makeQuestion`) and proves the specified properties
about it.

Modelling choices:

* A quiz record is a pair of strings (`question`, `answer`), exactly the two
  fields the play loop reads from the rows returned by
  `models.quiz.findAll({raw: true})`.
* JavaScript's `String.prototype.trim` and `String.prototype.toLowerCase`
  are modelled on the ASCII fragment (`jsTrim`, `jsToLowerCase`); all
  answer strings handled by the engine are compared through them, mirroring
  `answer.trim().toLowerCase() === quiz.answer.trim().toLowerCase()`.
* `Math.random()` is modelled as an oracle `rs : ℕ → ℚ` of exact rationals,
  one draw per loop iteration; the engine's index choice
  `Math.floor(Math.random() * toBePlayed.length)` becomes
  `pickIndex (rs k) pool.length = ⌊rs k * pool.length⌋`.
* `rl.question` (wrapped by `makeQuestion`, which resolves with the trimmed
  input) is modelled as an oracle `ans : ℕ → String`, one answer per issued
  prompt.
* Every line written through `log`/`biglog`, and every prompt issued through
  `makeQuestion`, is recorded as a structured `Line` event in issue order;
  `Line.render` gives the concrete text of each event as built by the
  source's template literals (colour codes aside).
* The recursion of `playOne` is driven by a `fuel` parameter; since every
  iteration removes one element from the pool, `fuel = pool.length` is
  always enough (`playOne_outcome_normal` below), and the `fuelOut` outcome
  is a pure artefact of totalisation that is proved unreachable.
* An out-of-range index (`toBePlayed[pos]` with `pos` outside the pool)
  would make `quiz` be `undefined` in the source, so building the template
  literal `` `¿${quiz.question}? ` `` would throw a `TypeError`, rejecting
  the promise before any further event; this is the `invalid` outcome.
  `playCmd`'s promise chain catches any rejection with
  `.catch(error => errorlog(socket, error.message))` and then runs `fin()`
  regardless, which is modelled faithfully: an `errorLine` event followed by
  the tally.
-/

namespace P4Quiz

/-- A quiz row as consumed by the play loop: the two text attributes read by
`playOne` from the rows of `models.quiz.findAll({raw: true})`. -/
structure Quiz where
  question : String
  answer : String
deriving DecidableEq, Repr

/-- The ASCII characters stripped by JavaScript's `String.prototype.trim`
(space, tab, line feed, carriage return, vertical tab, form feed). -/
def isJsSpace (c : Char) : Bool :=
  c = ' ' || c = '\t' || c = '\n' || c = '\r' || c = '\x0b' || c = '\x0c'

/-- JavaScript `s.trim()`: drop leading and trailing whitespace. -/
def jsTrim (s : String) : String :=
  String.mk (((s.toList.dropWhile isJsSpace).reverse.dropWhile isJsSpace).reverse)

/-- JavaScript `s.toLowerCase()` on the ASCII fragment: lower-case every
character. -/
def jsToLowerCase (s : String) : String :=
  String.mk (s.toList.map Char.toLower)

/-- The normalisation applied to both sides of the answer comparison in
`playOne` (and `testCmd`): `x.trim().toLowerCase()`. -/
def normalizeAnswer (s : String) : String :=
  jsToLowerCase (jsTrim s)

/-- The answer judgement of `playOne`:
`answer.trim().toLowerCase() === quiz.answer.trim().toLowerCase()`. -/
def answersMatch (given stored : String) : Bool :=
  normalizeAnswer given == normalizeAnswer stored

/-- The singular/plural label chosen by
`let aciertos = (score >= 2) ? "aciertos" : "acierto";`. -/
def aciertosLabel (score : ℕ) : String :=
  if 2 ≤ score then "aciertos" else "acierto"

/-- `Math.floor(r * n)`: the random index chosen by
`Math.floor(Math.random() * toBePlayed.length)`, with the random draw `r`
modelled as an exact rational. -/
def pickIndex (r : ℚ) (n : ℕ) : ℤ :=
  ⌊r * (n : ℚ)⌋

/-- One observable line of the session, in issue order: prompts issued via
`makeQuestion` and lines printed via `log`/`biglog`/`errorlog`.  The `tally`
event stands for the two lines printed by `fin()` (the
`Fin del juego. Aciertos:` header and the big score). -/
inductive Line where
  | nothingLeft
  | prompt (question : String)
  | correcto (score : ℕ) (label : String)
  | incorrecto (correctAnswer : String)
  | errorLine (msg : String)
  | tally (score : ℕ)
deriving DecidableEq, Repr

/-- The concrete text of each event, as assembled by the source's template
literals (ANSI colouring stripped; the two lines of `fin()` joined). -/
def Line.render : Line → String
  | .nothingLeft => "No hay nada más que preguntar."
  | .prompt q => "¿" ++ q ++ "? "
  | .correcto s lbl => "CORRECTO - Lleva " ++ toString s ++ " " ++ lbl ++ "."
  | .incorrecto a => "INCORRECTO. La respuesta correcta era: " ++ a
  | .errorLine m => m
  | .tally s => "Fin del juego. Aciertos:" ++ "\n" ++ toString s

/-- How one invocation of the recursive `playOne` promise settles. -/
inductive Outcome where
  /-- The pool was empty at loop entry (`toBePlayed.length <= 0`). -/
  | exhausted
  /-- A wrong answer: the promise resolves without recursing. -/
  | failed
  /-- The chosen index was outside the pool, so `quiz` is `undefined` and
  the promise rejects with a `TypeError`. -/
  | invalid
  /-- Totalisation artefact: recursion fuel ran out (proved unreachable
  whenever `fuel ≥ pool.length`). -/
  | fuelOut
deriving DecidableEq, Repr

/-- The settled state of one `playOne` call: final score, how it settled,
the events it emitted, the quizzes it asked (in order), and the pool left
in `toBePlayed`. -/
structure SessionResult where
  score : ℕ
  outcome : Outcome
  events : List Line
  asked : List Quiz
  toBePlayed : List Quiz
deriving DecidableEq, Repr

/-- The recursive `playOne` closure of `playCmd`:

* empty pool: log `No hay nada más que preguntar.` and resolve;
* otherwise `pos = Math.floor(Math.random() * toBePlayed.length)`,
  `quiz = toBePlayed[pos]`, `toBePlayed.splice(pos, 1)`, issue the prompt
  `¿quiz.question? ` and await the answer;
* correct answer: `score++`, log the `CORRECTO` line with the running score
  and its singular/plural label, and resolve with the recursive call;
* wrong answer: log the `INCORRECTO` line carrying the stored answer and
  resolve.

State threaded explicitly: `k` counts iterations (indexing the two
oracles), `pool` is `toBePlayed`, `score` the running score. -/
def playOne (rs : ℕ → ℚ) (ans : ℕ → String) :
    ℕ → ℕ → List Quiz → ℕ → SessionResult
  | _, _, [], score =>
      { score := score, outcome := .exhausted, events := [.nothingLeft],
        asked := [], toBePlayed := [] }
  | 0, _, pool, score =>
      { score := score, outcome := .fuelOut, events := [],
        asked := [], toBePlayed := pool }
  | fuel + 1, k, q :: qs, score =>
      let pool := q :: qs
      let pos : ℤ := pickIndex (rs k) pool.length
      if h : 0 ≤ pos ∧ pos.toNat < pool.length then
        let quiz := pool.get ⟨pos.toNat, h.2⟩
        let rest := pool.eraseIdx pos.toNat
        if answersMatch (ans k) quiz.answer then
          let r := playOne rs ans fuel (k + 1) rest (score + 1)
          { score := r.score, outcome := r.outcome,
            events := .prompt quiz.question ::
              .correcto (score + 1) (aciertosLabel (score + 1)) :: r.events,
            asked := quiz :: r.asked, toBePlayed := r.toBePlayed }
        else
          { score := score, outcome := .failed,
            events := [.prompt quiz.question, .incorrecto quiz.answer],
            asked := [quiz], toBePlayed := rest }
      else
        { score := score, outcome := .invalid, events := [],
          asked := [], toBePlayed := pool }

/-- What `playCmd` observably does: fetch the quizzes (`findAll`), play,
catch any rejection with `errorlog(error.message)`, then unconditionally
run `fin()` — the tally — and return.  A rejected fetch is `.error msg`;
the pool is the fetched list otherwise.  Note that the `.catch` swallows
every failure and `fin()` runs in a subsequent `.then`, so the tally is
printed on every path. -/
def playCmd (fetched : Except String (List Quiz)) (rs : ℕ → ℚ)
    (ans : ℕ → String) : ℕ × List Line :=
  match fetched with
  | .error msg => (0, [.errorLine msg, .tally 0])
  | .ok quizzes =>
      let r := playOne rs ans quizzes.length 0 quizzes 0
      match r.outcome with
      | .invalid =>
          (r.score, r.events ++
            [.errorLine "TypeError: quiz is undefined", .tally r.score])
      | _ => (r.score, r.events ++ [.tally r.score])

/-- Event classifiers and counters used to state the observable
properties. -/
def isPromptLine : Line → Bool
  | .prompt _ => true
  | _ => false

def isCorrectoLine : Line → Bool
  | .correcto _ _ => true
  | _ => false

def isIncorrectoLine : Line → Bool
  | .incorrecto _ => true
  | _ => false

def isTallyLine : Line → Bool
  | .tally _ => true
  | _ => false

def isErrorLineB : Line → Bool
  | .errorLine _ => true
  | _ => false

def countPrompts (es : List Line) : ℕ := es.countP isPromptLine

def countCorrectos (es : List Line) : ℕ := es.countP isCorrectoLine

/-- The running scores displayed by the `CORRECTO` lines, in order. -/
def correctoScores : List Line → List ℕ
  | [] => []
  | .correcto s _ :: es => s :: correctoScores es
  | _ :: es => correctoScores es

/-- A concrete random oracle that always draws `0` (a legal `Math.random()`
value): the engine then always picks index `0`. -/
def rzero : ℕ → ℚ := fun _ => 0

/-- A scripted prompt oracle: the `k`-th prompt is answered with the `k`-th
string of the list (and `""` past its end). -/
def ansSeq (xs : List String) : ℕ → String := fun k => xs.getD k ""

/-- A concrete three-quiz collection used for the scripted scenarios. -/
def threeQuizzes : List Quiz :=
  [⟨"q1", "a1"⟩, ⟨"q2", "a2"⟩, ⟨"q3", "a3"⟩]

/-! ## Helper lemmas -/

lemma pickIndex_nonneg {r : ℚ} (h0 : 0 ≤ r) (n : ℕ) : 0 ≤ pickIndex r n := by
  unfold pickIndex
  positivity

lemma pickIndex_lt {r : ℚ} (h1 : r < 1) {n : ℕ} (hn : 0 < n) :
    pickIndex r n < (n : ℤ) := by
  unfold pickIndex
  have hn' : (0 : ℚ) < n := by exact_mod_cast hn
  have h2 : r * n < 1 * n := mul_lt_mul_of_pos_right h1 hn'
  rw [one_mul] at h2
  rw [Int.floor_lt]
  exact_mod_cast h2

lemma pickIndex_zero (n : ℕ) : pickIndex 0 n = 0 := by
  simp [pickIndex]

lemma cons_eraseIdx_perm {α : Type} (l : List α) (i : ℕ) (h : i < l.length) :
    (l.get ⟨i, h⟩ :: l.eraseIdx i).Perm l := by
  rw [List.eraseIdx_eq_take_drop_succ]
  conv_rhs => rw [← List.take_append_drop i l, List.drop_eq_getElem_cons h]
  exact List.perm_middle.symm

lemma playOne_nil (rs : ℕ → ℚ) (ans : ℕ → String) (fuel k score : ℕ) :
    playOne rs ans fuel k [] score =
      { score := score, outcome := .exhausted, events := [.nothingLeft],
        asked := [], toBePlayed := [] } := by
  cases fuel <;> rfl

/-- The `asked` list and the leftover pool of a `playOne` run are together a
permutation of the starting pool: the run removes asked quizzes one at a
time and never adds or alters an element. -/
lemma playOne_perm (rs : ℕ → ℚ) (ans : ℕ → String) :
    ∀ (fuel k : ℕ) (pool : List Quiz) (score : ℕ),
      ((playOne rs ans fuel k pool score).asked ++
        (playOne rs ans fuel k pool score).toBePlayed).Perm pool := by
  intro fuel
  induction fuel with
  | zero =>
    intro k pool score
    cases pool <;> simp [playOne]
  | succ fuel ih =>
    intro k pool score
    cases pool with
    | nil => simp [playOne_nil]
    | cons q qs =>
      rw [playOne]
      split
      · next h =>
        dsimp only
        split
        · next =>
          simpa using ((ih _ _ _).cons _).trans (cons_eraseIdx_perm _ _ h.2)
        · next =>
          simpa using cons_eraseIdx_perm (q :: qs) _ h.2
      · next => simp

lemma playOne_length (rs : ℕ → ℚ) (ans : ℕ → String) (fuel k : ℕ)
    (pool : List Quiz) (score : ℕ) :
    (playOne rs ans fuel k pool score).asked.length +
      (playOne rs ans fuel k pool score).toBePlayed.length = pool.length := by
  have h := (playOne_perm rs ans fuel k pool score).length_eq
  simpa using h

/-- The score only grows along a run. -/
lemma playOne_score_ge (rs : ℕ → ℚ) (ans : ℕ → String) :
    ∀ (fuel k : ℕ) (pool : List Quiz) (score : ℕ),
      score ≤ (playOne rs ans fuel k pool score).score := by
  intro fuel
  induction fuel with
  | zero => intro k pool score; cases pool <;> simp [playOne]
  | succ fuel ih =>
    intro k pool score
    cases pool with
    | nil => simp [playOne_nil]
    | cons q qs =>
      rw [playOne]
      split
      · next h =>
        dsimp only
        split
        · next => exact (Nat.le_succ score).trans (ih _ _ _)
        · next => exact Nat.le_refl score
      · next => exact Nat.le_refl score

/-- The scores displayed by the `CORRECTO` lines are consecutive: starting
from `score`, they read `score+1, score+2, …` up to the final score.  In
particular every correct answer increments the score by exactly one, and the
incremented score is what the feedback line shows. -/
lemma playOne_correctoScores (rs : ℕ → ℚ) (ans : ℕ → String) :
    ∀ (fuel k : ℕ) (pool : List Quiz) (score : ℕ),
      correctoScores (playOne rs ans fuel k pool score).events =
        List.range' (score + 1)
          ((playOne rs ans fuel k pool score).score - score) := by
  intro fuel
  induction fuel with
  | zero => intro k pool score; cases pool <;> simp [playOne, correctoScores]
  | succ fuel ih =>
    intro k pool score
    cases pool with
    | nil => simp [playOne_nil, correctoScores]
    | cons q qs =>
      rw [playOne]
      split
      · next h =>
        dsimp only
        split
        · next =>
          have hge := playOne_score_ge rs ans fuel (k + 1)
            ((q :: qs).eraseIdx (pickIndex (rs k) (q :: qs).length).toNat)
            (score + 1)
          simp only [correctoScores, ih]
          rw [show (playOne rs ans fuel (k + 1)
              ((q :: qs).eraseIdx (pickIndex (rs k) (q :: qs).length).toNat)
              (score + 1)).score - score =
            ((playOne rs ans fuel (k + 1)
              ((q :: qs).eraseIdx (pickIndex (rs k) (q :: qs).length).toNat)
              (score + 1)).score - (score + 1)) + 1 from by omega]
          simp [List.range']
        · next => simp [correctoScores]
      · next => simp [correctoScores]

/-- One prompt is issued per asked quiz. -/
lemma playOne_countPrompts (rs : ℕ → ℚ) (ans : ℕ → String) :
    ∀ (fuel k : ℕ) (pool : List Quiz) (score : ℕ),
      countPrompts (playOne rs ans fuel k pool score).events =
        (playOne rs ans fuel k pool score).asked.length := by
  intro fuel
  induction fuel with
  | zero =>
    intro k pool score
    cases pool <;> simp [playOne, countPrompts, isPromptLine]
  | succ fuel ih =>
    intro k pool score
    cases pool with
    | nil => simp [playOne_nil, countPrompts, isPromptLine]
    | cons q qs =>
      rw [playOne]
      split
      · next h =>
        dsimp only
        split
        · next =>
          simp only [countPrompts, List.countP_cons] at ih ⊢
          simp [ih, isPromptLine]
        · next => simp [countPrompts, List.countP_cons, isPromptLine]
      · next => simp [countPrompts]

/-- The score gained in a run is at most the number of quizzes asked. -/
lemma playOne_score_le (rs : ℕ → ℚ) (ans : ℕ → String) :
    ∀ (fuel k : ℕ) (pool : List Quiz) (score : ℕ),
      (playOne rs ans fuel k pool score).score ≤
        score + (playOne rs ans fuel k pool score).asked.length := by
  intro fuel
  induction fuel with
  | zero => intro k pool score; cases pool <;> simp [playOne]
  | succ fuel ih =>
    intro k pool score
    cases pool with
    | nil => simp [playOne_nil]
    | cons q qs =>
      rw [playOne]
      split
      · next h =>
        dsimp only
        split
        · next =>
          have hrec := ih (k + 1)
            ((q :: qs).eraseIdx (pickIndex (rs k) (q :: qs).length).toNat)
            (score + 1)
          dsimp only
          generalize playOne rs ans fuel (k + 1)
            ((q :: qs).eraseIdx (pickIndex (rs k) (q :: qs).length).toNat)
            (score + 1) = R at hrec ⊢
          simp only [List.length_cons]
          omega
        · next => simp
      · next => simp

/-- `playOne` itself prints neither the tally nor an error line: those come
from the surrounding `playCmd` chain. -/
lemma playOne_no_tally (rs : ℕ → ℚ) (ans : ℕ → String) :
    ∀ (fuel k : ℕ) (pool : List Quiz) (score : ℕ),
      (playOne rs ans fuel k pool score).events.countP isTallyLine = 0 ∧
      (playOne rs ans fuel k pool score).events.countP isErrorLineB = 0 := by
  intro fuel
  induction fuel with
  | zero =>
    intro k pool score
    cases pool <;> simp [playOne, isTallyLine, isErrorLineB]
  | succ fuel ih =>
    intro k pool score
    cases pool with
    | nil => simp [playOne_nil, isTallyLine, isErrorLineB]
    | cons q qs =>
      rw [playOne]
      split
      · next h =>
        dsimp only
        split
        · next =>
          have hrec := ih (k + 1)
            ((q :: qs).eraseIdx (pickIndex (rs k) (q :: qs).length).toNat)
            (score + 1)
          dsimp only
          generalize playOne rs ans fuel (k + 1)
            ((q :: qs).eraseIdx (pickIndex (rs k) (q :: qs).length).toNat)
            (score + 1) = R at hrec ⊢
          simp [List.countP_cons, isTallyLine, isErrorLineB, hrec.1, hrec.2]
        · next => simp [List.countP_cons, isTallyLine, isErrorLineB]
      · next => simp

/-- In every prefix of the event stream, the number of `CORRECTO` lines is
at most the number of prompts issued: the running score never exceeds the
number of quizzes asked so far, at any point of the session. -/
lemma playOne_take_counts (rs : ℕ → ℚ) (ans : ℕ → String) :
    ∀ (fuel k : ℕ) (pool : List Quiz) (score n : ℕ),
      countCorrectos ((playOne rs ans fuel k pool score).events.take n) ≤
        countPrompts ((playOne rs ans fuel k pool score).events.take n) := by
  intro fuel
  induction fuel with
  | zero =>
    intro k pool score n
    cases pool <;>
      cases n <;>
        simp [playOne, countPrompts, countCorrectos, List.countP_cons,
          isPromptLine, isCorrectoLine]
  | succ fuel ih =>
    intro k pool score n
    cases pool with
    | nil =>
      cases n <;>
        simp [playOne_nil, countPrompts, countCorrectos, List.countP_cons,
          isPromptLine, isCorrectoLine]
    | cons q qs =>
      rw [playOne]
      split
      · next h =>
        dsimp only
        split
        · next =>
          cases n with
          | zero => simp [countPrompts, countCorrectos]
          | succ m =>
            cases m with
            | zero =>
              simp [countPrompts, countCorrectos, List.countP_cons,
                isPromptLine, isCorrectoLine]
            | succ m' =>
              have hih := ih (k + 1)
                ((q :: qs).eraseIdx (pickIndex (rs k) (q :: qs).length).toNat)
                (score + 1) m'
              dsimp only
              generalize playOne rs ans fuel (k + 1)
                ((q :: qs).eraseIdx (pickIndex (rs k) (q :: qs).length).toNat)
                (score + 1) = R at hih ⊢
              simp only [List.take_succ_cons, countPrompts, countCorrectos,
                List.countP_cons, isPromptLine, isCorrectoLine] at hih ⊢
              omega
        · next =>
          cases n with
          | zero => simp [countPrompts, countCorrectos]
          | succ m =>
            cases m <;>
              simp [countPrompts, countCorrectos, List.countP_cons,
                isPromptLine, isCorrectoLine, List.take_succ_cons]
      · next =>
        cases n <;> simp [countPrompts, countCorrectos]

/-- With a well-behaved random oracle (every draw in `[0,1)`) and enough
fuel, a run ends in one of the two normal outcomes. -/
lemma playOne_outcome_normal (rs : ℕ → ℚ) (ans : ℕ → String)
    (hrs : ∀ i, 0 ≤ rs i ∧ rs i < 1) :
    ∀ (fuel k : ℕ) (pool : List Quiz) (score : ℕ), pool.length ≤ fuel →
      (playOne rs ans fuel k pool score).outcome = .exhausted ∨
      (playOne rs ans fuel k pool score).outcome = .failed := by
  intro fuel
  induction fuel with
  | zero =>
    intro k pool score hlen
    have : pool = [] := List.length_eq_zero.mp (Nat.le_zero.mp hlen)
    subst this
    simp [playOne]
  | succ fuel ih =>
    intro k pool score hlen
    cases pool with
    | nil => simp [playOne_nil]
    | cons q qs =>
      rw [playOne]
      split
      · next h =>
        dsimp only
        split
        · next =>
          refine ih (k + 1) _ (score + 1) ?_
          rw [List.length_eraseIdx_of_lt h.2]
          simp only [List.length_cons] at hlen ⊢
          omega
        · next => right; rfl
      · next hfalse =>
        exfalso
        apply hfalse
        have h1 := pickIndex_nonneg (hrs k).1 (q :: qs).length
        have h2 := pickIndex_lt (hrs k).2
          (show 0 < (q :: qs).length by simp)
        exact ⟨h1, by omega⟩

/-- An `INCORRECTO` line can only be the very last event of a run: a wrong
answer ends the session, with no further prompt or feedback. -/
lemma playOne_incorrecto_last (rs : ℕ → ℚ) (ans : ℕ → String) :
    ∀ (fuel k : ℕ) (pool : List Quiz) (score n : ℕ) (a : String),
      (playOne rs ans fuel k pool score).events[n]? = some (.incorrecto a) →
      n + 1 = (playOne rs ans fuel k pool score).events.length := by
  intro fuel
  induction fuel with
  | zero =>
    intro k pool score n a h
    cases pool <;> cases n <;> simp_all [playOne]
  | succ fuel ih =>
    intro k pool score n a h
    cases pool with
    | nil =>
      rw [playOne_nil] at h ⊢
      cases n <;> simp_all

    | cons q qs =>
      rw [playOne] at h ⊢
      revert h
      split
      · next hpos =>
        dsimp only
        split
        · next =>
          intro h
          cases n with
          | zero => simp at h
          | succ m =>
            cases m with
            | zero => simp at h
            | succ m' =>
              simp only [List.getElem?_cons_succ] at h
              have hlast := ih (k + 1)
                ((q :: qs).eraseIdx (pickIndex (rs k) (q :: qs).length).toNat)
                (score + 1) m' a h
              generalize playOne rs ans fuel (k + 1)
                ((q :: qs).eraseIdx (pickIndex (rs k) (q :: qs).length).toNat)
                (score + 1) = R at hlast ⊢
              simp only [List.length_cons]
              omega
        · next =>
          intro h
          cases n with
          | zero => simp at h
          | succ m => cases m <;> simp_all
      · next =>
        intro h
        simp at h

/-- Every `CORRECTO` line displayed by a run carries a score strictly above
the starting score, labelled by the singular/plural rule of the source. -/
lemma playOne_correcto_mem (rs : ℕ → ℚ) (ans : ℕ → String) :
    ∀ (fuel k : ℕ) (pool : List Quiz) (score s : ℕ) (lbl : String),
      Line.correcto s lbl ∈ (playOne rs ans fuel k pool score).events →
      lbl = aciertosLabel s ∧ score + 1 ≤ s := by
  intro fuel
  induction fuel with
  | zero =>
    intro k pool score s lbl h
    cases pool <;> simp_all [playOne]
  | succ fuel ih =>
    intro k pool score s lbl h
    cases pool with
    | nil =>
      rw [playOne_nil] at h
      simp at h
    | cons q qs =>
      rw [playOne] at h
      revert h
      split
      · next hpos =>
        dsimp only
        split
        · next =>
          intro h
          simp only [List.mem_cons] at h
          rcases h with h | h | h
          · exact absurd h (by simp)
          · obtain ⟨hs, hlbl⟩ := Line.correcto.inj h.symm
            subst hs
            exact ⟨hlbl.symm, Nat.le_refl _⟩
          · have := ih (k + 1)
              ((q :: qs).eraseIdx (pickIndex (rs k) (q :: qs).length).toNat)
              (score + 1) s lbl h
            exact ⟨this.1, by omega⟩
        · next =>
          intro h
          simp at h
      · next =>
        intro h
        simp at h

/-- A one-quiz session judged explicitly: with a well-behaved first draw the
single quiz is asked, and the session scores 1 and exhausts the pool on a
normalised match, or scores 0 and fails otherwise. -/
lemma playOne_singleton (rs : ℕ → ℚ) (ans : ℕ → String) (q : Quiz)
    (h0 : 0 ≤ rs 0) (h1 : rs 0 < 1) :
    playOne rs ans 1 0 [q] 0 =
      if answersMatch (ans 0) q.answer then
        { score := 1, outcome := .exhausted,
          events := [.prompt q.question, .correcto 1 "acierto", .nothingLeft],
          asked := [q], toBePlayed := [] }
      else
        { score := 0, outcome := .failed,
          events := [.prompt q.question, .incorrecto q.answer],
          asked := [q], toBePlayed := [] } := by
  have hp : pickIndex (rs 0) (q :: ([] : List Quiz)).length = 0 := by
    have ha := pickIndex_nonneg h0 (q :: ([] : List Quiz)).length
    have hb := pickIndex_lt (n := (q :: ([] : List Quiz)).length) h1 (by simp)
    simp only [List.length_cons, List.length_nil] at ha hb ⊢
    omega
  have hstep : playOne rs ans 1 0 [q] 0 =
      playOne rs ans (0 + 1) 0 (q :: []) 0 := rfl
  rw [hstep, playOne]
  dsimp only
  simp only [hp]
  rw [dif_pos (show (0 : ℤ) ≤ 0 ∧ (0 : ℤ).toNat < (q :: ([] : List Quiz)).length
    from ⟨le_refl 0, by simp⟩)]
  rfl

/-- With the always-zero random oracle the engine always draws index `0`, so
one step takes the head of the pool. -/
lemma playOne_rzero_cons (ans : ℕ → String) (fuel k : ℕ) (q : Quiz)
    (qs : List Quiz) (score : ℕ) :
    playOne rzero ans (fuel + 1) k (q :: qs) score =
      if answersMatch (ans k) q.answer then
        { score := (playOne rzero ans fuel (k + 1) qs (score + 1)).score,
          outcome := (playOne rzero ans fuel (k + 1) qs (score + 1)).outcome,
          events := .prompt q.question ::
            .correcto (score + 1) (aciertosLabel (score + 1)) ::
            (playOne rzero ans fuel (k + 1) qs (score + 1)).events,
          asked := q :: (playOne rzero ans fuel (k + 1) qs (score + 1)).asked,
          toBePlayed := (playOne rzero ans fuel (k + 1) qs (score + 1)).toBePlayed }
      else
        { score := score, outcome := .failed,
          events := [.prompt q.question, .incorrecto q.answer],
          asked := [q], toBePlayed := qs } := by
  have hp : pickIndex (rzero k) (q :: qs).length = 0 :=
    pickIndex_zero (q :: qs).length
  rw [playOne]
  dsimp only
  simp only [hp]
  rw [dif_pos (show (0 : ℤ) ≤ 0 ∧ (0 : ℤ).toNat < (q :: qs).length
    from ⟨le_refl 0, by simp⟩)]
  rfl

/-- The scripted scenario of the spec: three quizzes, answers
right-right-wrong, under the always-zero random oracle.  Three prompts, each
quiz asked once, score `2`, `FAILED` termination, and the exact feedback
lines. -/
lemma threeQuizzes_run :
    playOne rzero (ansSeq ["a1", "a2", "bad"]) 3 0 threeQuizzes 0 =
      { score := 2, outcome := .failed,
        events := [.prompt "q1", .correcto 1 "acierto", .prompt "q2",
          .correcto 2 "aciertos", .prompt "q3", .incorrecto "a3"],
        asked := threeQuizzes, toBePlayed := [] } := by
  have h1 : playOne rzero (ansSeq ["a1", "a2", "bad"]) 3 0 threeQuizzes 0 =
      playOne rzero (ansSeq ["a1", "a2", "bad"]) (2 + 1) 0
        (⟨"q1", "a1"⟩ :: [⟨"q2", "a2"⟩, ⟨"q3", "a3"⟩]) 0 := rfl
  rw [h1, playOne_rzero_cons,
    if_pos (show answersMatch (ansSeq ["a1", "a2", "bad"] 0)
      (Quiz.mk "q1" "a1").answer = true from by decide)]
  have h2 : playOne rzero (ansSeq ["a1", "a2", "bad"]) 2 (0 + 1)
        [⟨"q2", "a2"⟩, ⟨"q3", "a3"⟩] (0 + 1) =
      playOne rzero (ansSeq ["a1", "a2", "bad"]) (1 + 1) 1
        (⟨"q2", "a2"⟩ :: [⟨"q3", "a3"⟩]) 1 := rfl
  rw [h2, playOne_rzero_cons,
    if_pos (show answersMatch (ansSeq ["a1", "a2", "bad"] 1)
      (Quiz.mk "q2" "a2").answer = true from by decide)]
  have h3 : playOne rzero (ansSeq ["a1", "a2", "bad"]) 1 (1 + 1)
        [⟨"q3", "a3"⟩] (1 + 1) =
      playOne rzero (ansSeq ["a1", "a2", "bad"]) (0 + 1) 2
        (⟨"q3", "a3"⟩ :: []) 2 := rfl
  rw [h3, playOne_rzero_cons,
    if_neg (show ¬ answersMatch (ansSeq ["a1", "a2", "bad"] 2)
      (Quiz.mk "q3" "a3").answer = true from by decide)]
  rfl

/-- With a well-behaved random oracle the `invalid` outcome (out-of-range
index) is unreachable, for every fuel, pool and starting state. -/
lemma playOne_ne_invalid (rs : ℕ → ℚ) (ans : ℕ → String)
    (hrs : ∀ i, 0 ≤ rs i ∧ rs i < 1) :
    ∀ (fuel k : ℕ) (pool : List Quiz) (score : ℕ),
      (playOne rs ans fuel k pool score).outcome ≠ .invalid := by
  intro fuel
  induction fuel with
  | zero => intro k pool score; cases pool <;> simp [playOne]
  | succ fuel ih =>
    intro k pool score
    cases pool with
    | nil => simp [playOne_nil]
    | cons q qs =>
      rw [playOne]
      split
      · next h =>
        dsimp only
        split
        · next => exact ih _ _ _
        · next => simp
      · next hfalse =>
        exfalso
        apply hfalse
        have h1 := pickIndex_nonneg (hrs k).1 (q :: qs).length
        have h2 := pickIndex_lt (hrs k).2
          (show 0 < (q :: qs).length by simp)
        exact ⟨h1, by omega⟩

/-- `playCmd` on a successful fetch: the returned score is the session's
final score, the tally is printed exactly once, and the last printed event
is the tally carrying exactly the returned score. -/
lemma playCmd_ok_tally (rs : ℕ → ℚ) (ans : ℕ → String) (pool : List Quiz) :
    (playCmd (.ok pool) rs ans).1 =
        (playOne rs ans pool.length 0 pool 0).score
    ∧ (playCmd (.ok pool) rs ans).2.countP isTallyLine = 1
    ∧ (playCmd (.ok pool) rs ans).2.getLast? =
        some (.tally (playCmd (.ok pool) rs ans).1) := by
  have hnt := playOne_no_tally rs ans pool.length 0 pool 0
  rcases ho : (playOne rs ans pool.length 0 pool 0).outcome <;>
    simp [playCmd, ho, List.countP_append, List.countP_cons, hnt.1,
      isTallyLine, List.getLast?_concat]

/-- `playCmd` on a successful fetch with a well-behaved random oracle never
prints an error line. -/
lemma playCmd_ok_no_error (rs : ℕ → ℚ) (ans : ℕ → String)
    (hrs : ∀ i, 0 ≤ rs i ∧ rs i < 1) (pool : List Quiz) :
    (playCmd (.ok pool) rs ans).2.countP isErrorLineB = 0 := by
  have hnt := playOne_no_tally rs ans pool.length 0 pool 0
  have hni := playOne_ne_invalid rs ans hrs pool.length 0 pool 0
  rcases ho : (playOne rs ans pool.length 0 pool 0).outcome <;>
    simp_all [playCmd, ho, List.countP_append, List.countP_cons,
      isErrorLineB]

/-! ## Claims -/

/-- C1, counterexample: the claim says a failed quiz-store fetch is
propagated as a distinct ABORTED outcome with no final tally.  On the code
this is false: with a rejected fetch, `playCmd`'s `.catch` swallows the
error (printing it) and the subsequent `.then` still runs `fin()`, so a
tally — `Fin del juego. Aciertos:` with score `0` — is printed anyway. -/
theorem C1_counterexample :
    (playCmd (.error "database unavailable") rzero (fun _ => "")).2.countP
        isTallyLine = 1
    ∧ (playCmd (.error "database unavailable") rzero (fun _ => "")).2 =
        [.errorLine "database unavailable", .tally 0] :=
  ⟨rfl, rfl⟩

/-- C1, amended: if a collaborator fails (the quiz-store fetch rejects),
the failure is caught inside `playCmd` and logged as an error line, and the
final tally (with the score accumulated so far, `0` for a failed fetch) is
still emitted; the caller receives no distinct ABORTED outcome, so an
aborted session is not distinguishable from normal termination by the
emitted tally. -/
theorem C1_amended :
    ∀ (msg : String) (rs : ℕ → ℚ) (ans : ℕ → String),
      playCmd (.error msg) rs ans = (0, [.errorLine msg, .tally 0]) :=
  fun _ _ _ => rfl

/-- C2: an answer is judged correct if and only if the given input, after
trimming and lower-casing, equals the quiz's stored answer after the same
trimming and lower-casing — both in the judgement predicate itself and as
observed through a one-quiz session's score; `"  Answer  "` vs `"answer"`
is judged equal and `"answer"` vs `"Answers"` unequal. -/
theorem C2_answer_judging :
    (∀ (rs : ℕ → ℚ) (ans : ℕ → String) (q : Quiz), 0 ≤ rs 0 → rs 0 < 1 →
      ((playOne rs ans 1 0 [q] 0).score = 1 ↔
        jsToLowerCase (jsTrim (ans 0)) = jsToLowerCase (jsTrim q.answer)))
    ∧ (∀ given stored : String,
        answersMatch given stored = true ↔
          jsToLowerCase (jsTrim given) = jsToLowerCase (jsTrim stored))
    ∧ answersMatch "  Answer  " "answer" = true
    ∧ answersMatch "answer" "Answers" = false := by
  have hiff : ∀ given stored : String,
      answersMatch given stored = true ↔
        jsToLowerCase (jsTrim given) = jsToLowerCase (jsTrim stored) := by
    intro given stored
    simp [answersMatch, normalizeAnswer]
  refine ⟨?_, hiff, by decide, by decide⟩
  intro rs ans q h0 h1
  rw [playOne_singleton rs ans q h0 h1]
  by_cases hm : answersMatch (ans 0) q.answer = true
  · rw [if_pos hm]
    exact ⟨fun _ => (hiff _ _).mp hm, fun _ => rfl⟩
  · rw [if_neg hm]
    exact ⟨fun h => absurd h Nat.zero_ne_one,
      fun h => absurd ((hiff _ _).mpr h) hm⟩

/-- C2 witness: a one-quiz session with stored answer `"Paris"` and input
`"paris"`, instantiating the judgement iff at a concrete input. -/
theorem C2_answer_judging_witness :
    (playOne rzero (fun _ => "paris") 1 0 [⟨"q", "Paris"⟩] 0).score = 1 ↔
      jsToLowerCase (jsTrim "paris") = jsToLowerCase (jsTrim "Paris") :=
  C2_answer_judging.1 rzero (fun _ => "paris") ⟨"q", "Paris"⟩ (le_refl 0)
    (by norm_num [rzero])

/-- C3: within one session no quiz is asked twice — the pool shrinks by
exactly one per question asked (one prompt per removed quiz, whether the
answer was right or wrong), and if the initial pool has no duplicates the
list of asked quizzes has none either; a removed quiz is never re-added. -/
theorem C3_no_repeat_within_session :
    ∀ (rs : ℕ → ℚ) (ans : ℕ → String) (fuel k : ℕ) (pool : List Quiz)
      (score : ℕ),
      (playOne rs ans fuel k pool score).asked.length +
        (playOne rs ans fuel k pool score).toBePlayed.length = pool.length
      ∧ countPrompts (playOne rs ans fuel k pool score).events =
          (playOne rs ans fuel k pool score).asked.length
      ∧ (pool.Nodup → (playOne rs ans fuel k pool score).asked.Nodup) := by
  intro rs ans fuel k pool score
  refine ⟨playOne_length rs ans fuel k pool score,
    playOne_countPrompts rs ans fuel k pool score, ?_⟩
  intro hnd
  have hp := playOne_perm rs ans fuel k pool score
  have : ((playOne rs ans fuel k pool score).asked ++
      (playOne rs ans fuel k pool score).toBePlayed).Nodup :=
    hp.nodup_iff.mpr hnd
  exact (List.nodup_append.mp this).1

/-- C3 witness: the scripted three-quiz session asks three pairwise
distinct quizzes. -/
theorem C3_no_repeat_witness :
    (playOne rzero (ansSeq ["a1", "a2", "bad"]) 3 0 threeQuizzes 0).asked.Nodup :=
  (C3_no_repeat_within_session rzero (ansSeq ["a1", "a2", "bad"]) 3 0
    threeQuizzes 0).2.2 (by decide)

/-- C4: in every session the score starts at 0 and the successive scores
shown by the correct-answer feedback are exactly `1, 2, 3, …` up to the
final score (incremented by exactly 1 per correct answer, never
decremented); at every point of the event stream the number of correct
answers so far is at most the number of quizzes asked so far, the number
asked is at most the initial pool size, and hence the final score is at
most the number of quizzes initially available. -/
theorem C4_score_invariant :
    ∀ (rs : ℕ → ℚ) (ans : ℕ → String) (pool : List Quiz),
      correctoScores (playOne rs ans pool.length 0 pool 0).events =
        List.range' 1 (playOne rs ans pool.length 0 pool 0).score
      ∧ (∀ n, countCorrectos
            ((playOne rs ans pool.length 0 pool 0).events.take n) ≤
          countPrompts ((playOne rs ans pool.length 0 pool 0).events.take n))
      ∧ countPrompts (playOne rs ans pool.length 0 pool 0).events ≤
          pool.length
      ∧ (playOne rs ans pool.length 0 pool 0).score ≤ pool.length := by
  intro rs ans pool
  refine ⟨?_, ?_, ?_, ?_⟩
  · have h := playOne_correctoScores rs ans pool.length 0 pool 0
    simpa using h
  · intro n
    exact playOne_take_counts rs ans pool.length 0 pool 0 n
  · rw [playOne_countPrompts]
    have := playOne_length rs ans pool.length 0 pool 0
    omega
  · have h1 := playOne_score_le rs ans pool.length 0 pool 0
    have h2 := playOne_length rs ans pool.length 0 pool 0
    omega

/-- C5: with an empty quiz collection the session ends immediately and
normally: the returned score is 0, the only output is the
`No hay nada más que preguntar.` message followed by the tally reporting 0,
no prompt is issued, and the session state is EXHAUSTED. -/
theorem C5_empty_collection :
    ∀ (rs : ℕ → ℚ) (ans : ℕ → String),
      playCmd (.ok []) rs ans = (0, [.nothingLeft, .tally 0])
      ∧ countPrompts (playCmd (.ok []) rs ans).2 = 0
      ∧ (playOne rs ans 0 0 [] 0).outcome = .exhausted :=
  fun _ _ => ⟨rfl, rfl, rfl⟩

/-- C6: a correct answer produces a `CORRECTO` feedback line carrying the
running score and the session continues; an incorrect answer produces an
`INCORRECTO` line carrying the stored correct answer and the session
terminates — an `INCORRECTO` line can only ever be the last event.
Concretely, three quizzes answered right, right, wrong yield exactly 3
prompts, no repeated quiz, final score 2 and FAILED termination. -/
theorem C6_feedback_and_scripted :
    (∀ (rs : ℕ → ℚ) (ans : ℕ → String) (fuel k : ℕ) (pool : List Quiz)
        (score n : ℕ) (a : String),
      (playOne rs ans fuel k pool score).events[n]? =
          some (.incorrecto a) →
        n + 1 = (playOne rs ans fuel k pool score).events.length)
    ∧ playOne rzero (ansSeq ["a1", "a2", "bad"]) 3 0 threeQuizzes 0 =
      { score := 2, outcome := .failed,
        events := [.prompt "q1", .correcto 1 "acierto", .prompt "q2",
          .correcto 2 "aciertos", .prompt "q3", .incorrecto "a3"],
        asked := threeQuizzes, toBePlayed := [] } :=
  ⟨fun rs ans => playOne_incorrecto_last rs ans, threeQuizzes_run⟩

/-- C6 witness: in the scripted session the `INCORRECTO` line sits at index
5 of 6 — it is the last event. -/
theorem C6_feedback_and_scripted_witness :
    5 + 1 = (playOne rzero (ansSeq ["a1", "a2", "bad"]) 3 0
      threeQuizzes 0).events.length :=
  C6_feedback_and_scripted.1 rzero (ansSeq ["a1", "a2", "bad"]) 3 0
    threeQuizzes 0 5 "a3" (by rw [C6_feedback_and_scripted.2]; rfl)

/-- C7: normal gameplay never takes the error path — with a well-behaved
random oracle every session ends EXHAUSTED or FAILED (never `invalid`),
`playCmd` returns the session's final score, prints the tally exactly once
as its last output with exactly that score, and prints no error line. -/
theorem C7_no_error_in_normal_play :
    ∀ (rs : ℕ → ℚ) (ans : ℕ → String) (pool : List Quiz),
      (∀ i, 0 ≤ rs i ∧ rs i < 1) →
      ((playOne rs ans pool.length 0 pool 0).outcome = .exhausted ∨
        (playOne rs ans pool.length 0 pool 0).outcome = .failed)
      ∧ (playCmd (.ok pool) rs ans).1 =
          (playOne rs ans pool.length 0 pool 0).score
      ∧ (playCmd (.ok pool) rs ans).2.countP isTallyLine = 1
      ∧ (playCmd (.ok pool) rs ans).2.getLast? =
          some (.tally (playCmd (.ok pool) rs ans).1)
      ∧ (playCmd (.ok pool) rs ans).2.countP isErrorLineB = 0 := by
  intro rs ans pool hrs
  have ht := playCmd_ok_tally rs ans pool
  exact ⟨playOne_outcome_normal rs ans hrs pool.length 0 pool 0
      (le_refl pool.length),
    ht.1, ht.2.1, ht.2.2, playCmd_ok_no_error rs ans hrs pool⟩

/-- C7 witness: the empty-pool session terminates normally (EXHAUSTED). -/
theorem C7_no_error_witness :
    (playOne rzero (fun _ => "") 0 0 ([] : List Quiz) 0).outcome =
        .exhausted ∨
    (playOne rzero (fun _ => "") 0 0 ([] : List Quiz) 0).outcome = .failed :=
  (C7_no_error_in_normal_play rzero (fun _ => "") []
    (fun _ => ⟨le_refl 0, by norm_num [rzero]⟩)).1

/-- C8: for every random draw `r ∈ [0,1)` and non-empty pool, the chosen
index `⌊r * poolSize⌋` satisfies `0 ≤ pos < poolSize`, so the element
access and one-element removal are in range; consequently the out-of-range
`invalid` outcome never occurs in any session driven by such draws. -/
theorem C8_random_index_in_range :
    (∀ (r : ℚ) (n : ℕ), 0 ≤ r → r < 1 → 0 < n →
      0 ≤ pickIndex r n ∧ pickIndex r n < (n : ℤ))
    ∧ (∀ (rs : ℕ → ℚ) (ans : ℕ → String) (fuel k : ℕ) (pool : List Quiz)
        (score : ℕ), (∀ i, 0 ≤ rs i ∧ rs i < 1) →
        (playOne rs ans fuel k pool score).outcome ≠ .invalid) :=
  ⟨fun _ n h0 h1 hn => ⟨pickIndex_nonneg h0 n, pickIndex_lt h1 hn⟩,
   fun rs ans fuel k pool score hrs =>
     playOne_ne_invalid rs ans hrs fuel k pool score⟩

/-- C8 witness: draw `0` over a pool of size 3, and a concrete one-quiz
session that does not reach the invalid outcome. -/
theorem C8_random_index_witness :
    (0 ≤ pickIndex 0 3 ∧ pickIndex 0 3 < (3 : ℤ)) ∧
    (playOne rzero (fun _ => "") 1 0 [⟨"q", "a"⟩] 0).outcome ≠ .invalid :=
  ⟨C8_random_index_in_range.1 0 3 (le_refl 0) (by norm_num) (by norm_num),
   C8_random_index_in_range.2 rzero (fun _ => "") 1 0 [⟨"q", "a"⟩] 0
     (fun _ => ⟨le_refl 0, by norm_num [rzero]⟩)⟩

/-- C9: the engine never mutates a quiz record: the quizzes asked during a
session together with those left in the pool are exactly (a permutation of)
the snapshot taken at session start, and every asked quiz is one of the
snapshot's records, unchanged. -/
theorem C9_quizzes_unchanged :
    ∀ (rs : ℕ → ℚ) (ans : ℕ → String) (fuel k : ℕ) (pool : List Quiz)
      (score : ℕ),
      ((playOne rs ans fuel k pool score).asked ++
        (playOne rs ans fuel k pool score).toBePlayed).Perm pool
      ∧ ∀ qz ∈ (playOne rs ans fuel k pool score).asked, qz ∈ pool := by
  intro rs ans fuel k pool score
  refine ⟨playOne_perm rs ans fuel k pool score, ?_⟩
  intro qz hqz
  exact (playOne_perm rs ans fuel k pool score).mem_iff.mp
    (List.mem_append_left _ hqz)

/-- C9 witness: the first quiz asked in the scripted session is (still) a
record of the initial collection. -/
theorem C9_quizzes_unchanged_witness :
    (⟨"q1", "a1"⟩ : Quiz) ∈ threeQuizzes :=
  (C9_quizzes_unchanged rzero (ansSeq ["a1", "a2", "bad"]) 3 0
    threeQuizzes 0).2 ⟨"q1", "a1"⟩ (by rw [threeQuizzes_run]; decide)

/-- C10: the score is incremented before the correct-answer feedback is
emitted, so the scores shown by the successive `CORRECTO` lines are exactly
`1, 2, 3, …` (the n-th correct answer shows n, which counts the current
question); the displayed score is always at least 1, and the code's plural
test (`score >= 2`) therefore coincides with choosing the singular label
exactly when the shown score equals 1. -/
theorem C10_running_score_and_label :
    ∀ (rs : ℕ → ℚ) (ans : ℕ → String) (fuel : ℕ) (pool : List Quiz),
      correctoScores (playOne rs ans fuel 0 pool 0).events =
        List.range' 1 (playOne rs ans fuel 0 pool 0).score
      ∧ (∀ (s : ℕ) (lbl : String),
          Line.correcto s lbl ∈ (playOne rs ans fuel 0 pool 0).events →
          1 ≤ s ∧ lbl = aciertosLabel s ∧ (lbl = "aciertos" ↔ s ≠ 1)) := by
  intro rs ans fuel pool
  constructor
  · have h := playOne_correctoScores rs ans fuel 0 pool 0
    simpa using h
  · intro s lbl h
    have hm := playOne_correcto_mem rs ans fuel 0 pool 0 s lbl h
    refine ⟨by omega, hm.1, ?_⟩
    rcases Nat.lt_or_ge s 2 with h2 | h2
    · have hs1 : s = 1 := by omega
      subst hs1
      rw [hm.1]
      simp [aciertosLabel]
    · rw [hm.1]
      have : aciertosLabel s = "aciertos" := by simp [aciertosLabel, h2]
      rw [this]
      simp
      omega

/-- C10 witness: the second `CORRECTO` line of the scripted session shows
score 2 with the plural label. -/
theorem C10_running_score_witness :
    1 ≤ 2 ∧ "aciertos" = aciertosLabel 2 ∧ ("aciertos" = "aciertos" ↔ 2 ≠ 1) :=
  (C10_running_score_and_label rzero (ansSeq ["a1", "a2", "bad"]) 3
    threeQuizzes).2 2 "aciertos" (by rw [threeQuizzes_run]; decide)

end P4Quiz
